import Mathlib

/-!
Verification of the resource dependency-graph evaluator of the `metalearn`
repository (`metalearn/metafeatures/metafeatures.py`), shallowly embedded
in Lean 4.

The embedding follows the source file closely:

* the static registry (`_resource_info` / `_functions`, loaded from the
  metadata JSON) is modelled as association lists of descriptors;
* the session cache `self._resources` is a map from resource names to
  `(value, compute_time)` pairs;
* `_get_resource` / `_get_parameters` become a fuel-indexed recursive
  resolver over an explicit evaluator state; Python `KeyError` paths and
  fuel exhaustion are modelled as `Option.none`;
* the `np.nan` uncomputable marker is the distinguished value `Val.nan`,
  and the NaN compute-time sentinel is `MTime.nan`;
* producing functions (`eval(f)(*parameters)`) are an oracle parameter
  `runFn`, which also receives the seed state, since producing functions
  such as `_get_seed` read `self.seed` / `self.seed_offset`;
* wall-clock time for one producing-function call is an oracle `elapsed`
  indexed by the number of previous invocations in the session.
-/

namespace Metalearn

/-- A declared parameter of a resource or function: either a numeric
literal (the `dtype_is_numeric(type(parameter))` branch of
`_get_parameters`) or the name of another resource. -/
inductive Param where
  | lit (n : Int)
  | res (name : String)
deriving DecidableEq

/-- A resource value.  `Val.nan` is the `np.nan` uncomputable marker
(Python identity `value is np.nan`); the other constructors model the
concrete Python values stored in the session cache. -/
inductive Val where
  | nan
  | intv (n : Int)
  | strv (s : String)
  | table (t : List (String × List (Option Int)))
  | series (s : Option (String × List Int))
  | colTypes (ct : List (String × String))
  | shape (s : List (Option Int))
deriving DecidableEq

/-- A recorded compute time: either the NaN sentinel (stored by
`_get_resource` when a dependency is uncomputable) or a finite duration. -/
inductive MTime where
  | nan
  | fin (t : Nat)
deriving DecidableEq

/-- Python float addition with NaN absorption, as used for
`total_time += time_value` and `total_time += elapsed_time`. -/
def MTime.add : MTime → MTime → MTime
  | .nan, _ => .nan
  | _, .nan => .nan
  | .fin a, .fin b => .fin (a + b)

/-- One entry of `_metadata["resources"]` / `_metadata["metafeatures"]`:
`{function, parameters?, returns?, seed_offset?}`. -/
structure ResourceInfo where
  function : String
  parameters : Option (List Param)
  returns : Option (List String)
  seed_offset : Option Int
deriving DecidableEq

/-- One entry of `_metadata["functions"]`:
`{parameters, returns, seed_offset?}`. -/
structure FnInfo where
  parameters : List Param
  returns : List String
  seed_offset : Option Int
deriving DecidableEq

/-- The static registry: `_resource_info` (the merge of the `resources`
and `metafeatures` metadata dicts) and `_functions`. -/
structure Registry where
  resource_info : List (String × ResourceInfo)
  functions : List (String × FnInfo)

/-- The mutable state of one `compute` session: the cache
`self._resources`, the seed state `self.seed` / `self.seed_offset`, and a
ghost trace recording, for each producing-function invocation, the
resource name it was invoked for together with the value of
`self.seed_offset` at the moment of the call. -/
structure EvalState where
  resources : String → Option (Val × MTime)
  seed : Int
  seed_offset : Int
  trace : List (String × Int)

/-- `self._resources[name] = {value: v, compute_time: t}`. -/
def updateCache (c : String → Option (Val × MTime)) (n : String)
    (vt : Val × MTime) : String → Option (Val × MTime) :=
  fun m => if m = n then some vt else c m

/-- The store loop of `_get_resource`:
`for result_name, result in zip(returns, results): ...`, every output
recorded with the same `total_time`. -/
def storeResults (c : String → Option (Val × MTime))
    (l : List (String × Val)) (t : MTime) : String → Option (Val × MTime) :=
  l.foldl (fun c p => updateCache c p.1 (p.2, t)) c

/-- The effective parameter list of a resource: the descriptor-specific
override if present, otherwise the producing function's declared list
(`parameters = resource_info['parameters'] if ... else
self._functions[f]['parameters']`); a missing function entry is the
`KeyError` path. -/
def effParams (R : Registry) (ri : ResourceInfo) : Option (List Param) :=
  match ri.parameters with
  | some ps => some ps
  | none => (R.functions.lookup ri.function).map FnInfo.parameters

/-- The effective output-name list of a resource
(`returns = resource_info['returns'] if ... else
self._functions[f]['returns']`). -/
def effReturns (R : Registry) (ri : ResourceInfo) : Option (List String) :=
  match ri.returns with
  | some rs => some rs
  | none => (R.functions.lookup ri.function).map FnInfo.returns

/-- The seed-offset assignment at the head of `_get_parameters`:
`if 'seed_offset' in resource_info: self.seed_offset = ...
elif 'seed_offset' in self._functions[f]: self.seed_offset = ...`.
Note the `elif` accesses `self._functions[f]`, so a missing function
entry raises (`none`) exactly when the descriptor declares no offset. -/
def assignSeedOffset (R : Registry) (ri : ResourceInfo) (s : EvalState) :
    Option EvalState :=
  match ri.seed_offset with
  | some o => some { s with seed_offset := o }
  | none =>
    match R.functions.lookup ri.function with
    | none => none
    | some fi =>
      match fi.seed_offset with
      | some o => some { s with seed_offset := o }
      | none => some s

/-- One iteration head of the `_get_parameters` loop: a numeric literal
is used directly with zero cost, a resource name is resolved through
`recur` (the recursive `_get_resource` call). -/
def paramStep (recur : EvalState → String → Option (Val × MTime × EvalState))
    (s : EvalState) : Param → Option (Val × MTime × EvalState)
  | Param.lit n => some (Val.intv n, MTime.fin 0, s)
  | Param.res pname => recur s pname

/-- The parameter-retrieval loop of `_get_parameters`: if a resolved
value is the `np.nan` marker the loop breaks with
`retrieved_parameters = None` before adding that parameter's time. -/
def getParamListAux
    (recur : EvalState → String → Option (Val × MTime × EvalState)) :
    EvalState → List Param → Option (Option (List Val) × MTime × EvalState)
  | s, [] => some (some [], MTime.fin 0, s)
  | s, p :: ps =>
    match paramStep recur s p with
    | none => none
    | some (v, tv, s1) =>
      if v = Val.nan then
        some (none, MTime.fin 0, s1)
      else
        match getParamListAux recur s1 ps with
        | none => none
        | some (rest, trest, s2) =>
          some (rest.map (fun vs => v :: vs), MTime.add tv trest, s2)

/-- `_get_parameters`, with the recursive `_get_resource` call abstracted
as `recur`: look up the descriptor, compute the effective parameter list,
assign the active seed offset, then run the retrieval loop. -/
def getParametersAux (R : Registry)
    (recur : EvalState → String → Option (Val × MTime × EvalState))
    (s : EvalState) (name : String) :
    Option (Option (List Val) × MTime × EvalState) :=
  match R.resource_info.lookup name with
  | none => none
  | some ri =>
    match effParams R ri with
    | none => none
    | some params =>
      match assignSeedOffset R ri s with
      | none => none
      | some s1 => getParamListAux recur s1 params

/-- `_get_resource`, fuel-indexed.  On a cache hit the cached pair is
returned unchanged.  On a miss the descriptor and output names are looked
up, parameters are retrieved; if retrieval aborted
(`parameters is None`) every output is stored as `(np.nan, np.nan)`
without invoking the producing function; otherwise the producing function
is invoked once (appending to the ghost trace), and every output is
stored with the cumulative time.  The final cache lookup models
`self._resources[resource_name]` (a `KeyError` if the name is not among
the stored outputs). -/
def getResource (R : Registry)
    (runFn : String → List Val → Int → Int → List Val)
    (elapsed : Nat → Nat) :
    Nat → EvalState → String → Option (Val × MTime × EvalState)
  | 0, _, _ => none
  | fuel + 1, s, name =>
    match s.resources name with
    | some vt => some (vt.1, vt.2, s)
    | none =>
      match R.resource_info.lookup name with
      | none => none
      | some ri =>
        match effReturns R ri with
        | none => none
        | some rets =>
          match getParametersAux R (getResource R runFn elapsed fuel) s name with
          | none => none
          | some (popt, ptime, s1) =>
            match popt with
            | none =>
              let c2 := storeResults s1.resources
                (rets.zip (List.replicate rets.length Val.nan)) MTime.nan
              match c2 name with
              | none => none
              | some vt => some (vt.1, vt.2, { s1 with resources := c2 })
            | some pvals =>
              let results := runFn ri.function pvals s1.seed s1.seed_offset
              let total_time := MTime.add ptime (MTime.fin (elapsed s1.trace.length))
              let s2 : EvalState :=
                { s1 with trace := s1.trace ++ [(name, s1.seed_offset)] }
              let c2 := storeResults s2.resources (rets.zip results) total_time
              match c2 name with
              | none => none
              | some vt => some (vt.1, vt.2, { s2 with resources := c2 })

/-- `_get_parameters` proper, tying the recursive knot at a given fuel. -/
def getParameters (R : Registry)
    (runFn : String → List Val → Int → Int → List Val)
    (elapsed : Nat → Nat) (fuel : Nat) :
    EvalState → String → Option (Option (List Val) × MTime × EvalState) :=
  getParametersAux R (getResource R runFn elapsed fuel)

/-- Resolving a list of requested resources in order, as the loop in
`compute` does for non-gated metafeatures. -/
def resolveAll (R : Registry)
    (runFn : String → List Val → Int → Int → List Val)
    (elapsed : Nat → Nat) (fuel : Nat) :
    EvalState → List String → Option EvalState
  | s, [] => some s
  | s, r :: rs =>
    match getResource R runFn elapsed fuel s r with
    | none => none
    | some (_, _, s') => resolveAll R runFn elapsed fuel s' rs

/-- `_get_seed`: `return (self.seed + self.seed_offset,)`. -/
def getSeed (seed seed_offset : Int) : List Val :=
  [Val.intv (seed + seed_offset)]

/-- `_set_seed`: a user-supplied seed is used as given, otherwise a
pseudo-randomly generated one (`np.random.randint(2**32)`, modelled as
the oracle argument `randv`). -/
def setSeed (randv : Int) : Option Int → Int
  | none => randv
  | some s => s

/-- The loop body of `_is_target_dependent` over a parameter list:
`for parameter in parameters: if cls._is_target_dependent(parameter):
return True`.  A numeric literal parameter reaches
`cls._resource_info[parameter]` and raises (`none`). -/
def anyTD (f : String → Option Bool) : List Param → Option Bool
  | [] => some false
  | p :: ps =>
    match p with
    | Param.lit _ => none
    | Param.res n =>
      match f n with
      | none => none
      | some true => some true
      | some false => anyTD f ps

/-- `_is_target_dependent`, fuel-indexed: `Y` is hardcoded true,
`XSample` hardcoded false; otherwise the descriptor's own parameter list
(`resource_info.get('parameters', [])`) is scanned, then the producing
function's declared parameter list. -/
def isTargetDependent (R : Registry) : Nat → String → Option Bool
  | 0, _ => none
  | fuel + 1, name =>
    if name = "Y" then some true
    else if name = "XSample" then some false
    else
      match R.resource_info.lookup name with
      | none => none
      | some ri =>
        match anyTD (isTargetDependent R fuel) (ri.parameters.getD []) with
        | none => none
        | some true => some true
        | some false =>
          match R.functions.lookup ri.function with
          | none => none
          | some fi => anyTD (isTargetDependent R fuel) fi.parameters

/-- The class constant `NUMERIC`. -/
def NUMERIC : String := "NUMERIC"

/-- The class constant `CATEGORICAL`. -/
def CATEGORICAL : String := "CATEGORICAL"

/-- The class constant `NO_TARGETS`. -/
def NO_TARGETS : String := "NO_TARGETS"

/-- The class constant `NUMERIC_TARGETS`. -/
def NUMERIC_TARGETS : String := "NUMERIC_TARGETS"

/-- The body of the metafeature loop in `compute` (lines 118-133):
target-dependent resources are gated to a sentinel with compute time
`None` (modelled as `Option.none`) when no target was given or the
target's column type is numeric; otherwise the resource is resolved.
`column_types[Y.name]` is a dict lookup that may raise (`none`). -/
def computeEntry (R : Registry)
    (runFn : String → List Val → Int → Int → List Val)
    (elapsed : Nat → Nat) (Y : Option (String × List Int))
    (column_types : List (String × String)) (fuelT fuelR : Nat)
    (s : EvalState) (id : String) :
    Option ((Val × Option MTime) × EvalState) :=
  match isTargetDependent R fuelT id with
  | none => none
  | some td =>
    if td then
      match Y with
      | none => some ((Val.strv NO_TARGETS, none), s)
      | some y =>
        match column_types.lookup y.1 with
        | none => none
        | some ty =>
          if ty = NUMERIC then
            some ((Val.strv NUMERIC_TARGETS, none), s)
          else
            match getResource R runFn elapsed fuelR s id with
            | none => none
            | some (v, t, s') => some ((v, some t), s')
    else
      match getResource R runFn elapsed fuelR s id with
      | none => none
      | some (v, t, s') => some ((v, some t), s')

/-- The metafeature loop of `compute`, producing the
`computed_metafeatures` mapping in request order. -/
def computeLoop (R : Registry)
    (runFn : String → List Val → Int → Int → List Val)
    (elapsed : Nat → Nat) (Y : Option (String × List Int))
    (column_types : List (String × String)) (fuelT fuelR : Nat) :
    EvalState → List String → Option (List (String × Val × Option MTime) × EvalState)
  | s, [] => some ([], s)
  | s, id :: ids =>
    match computeEntry R runFn elapsed Y column_types fuelT fuelR s id with
    | none => none
    | some ((v, t), s') =>
      match computeLoop R runFn elapsed Y column_types fuelT fuelR s' ids with
      | none => none
      | some (out, s'') => some ((id, v, t) :: out, s'')

/-- `X.dropna(axis=1, how="all")`: remove every column whose values are
all missing. -/
def dropAllNanCols (X : List (String × List (Option Int))) :
    List (String × List (Option Int)) :=
  X.filter (fun c => ¬ (c.2.all Option.isNone))

/-- `_init_resources`: the session cache is assigned a fresh dict literal
with exactly the six pre-resolved resources, each with compute time 0. -/
def initResources (X : List (String × List (Option Int)))
    (Y : Option (String × List Int)) (column_types : List (String × String))
    (sample_shape : List (Option Int)) (n_folds : Int) :
    String → Option (Val × MTime) :=
  fun n =>
    if n = "XRaw" then some (Val.table X, MTime.fin 0)
    else if n = "X" then some (Val.table (dropAllNanCols X), MTime.fin 0)
    else if n = "Y" then some (Val.series Y, MTime.fin 0)
    else if n = "ColumnTypes" then some (Val.colTypes column_types, MTime.fin 0)
    else if n = "sample_shape" then some (Val.shape sample_shape, MTime.fin 0)
    else if n = "n_folds" then some (Val.intv n_folds, MTime.fin 0)
    else none

/-- The state at the start of the metafeature loop of one `compute`
call: `_set_seed` then `_init_resources`.  The previous session's cache
(`prev.resources`) is discarded wholesale by the dict-literal assignment;
`self.seed_offset` is an instance attribute not touched by
initialization. -/
def initState (prev : EvalState) (X : List (String × List (Option Int)))
    (Y : Option (String × List Int)) (column_types : List (String × String))
    (sample_shape : List (Option Int)) (seed : Option Int) (randv : Int)
    (n_folds : Int) : EvalState :=
  { resources := initResources X Y column_types sample_shape n_folds
    seed := setSeed randv seed
    seed_offset := prev.seed_offset
    trace := [] }

/-- The caller-supplied `sample_shape` argument: `None`, a tuple/list of
optional bounds, or a value of any other type. -/
inductive ShapeArg where
  | noneArg
  | seq (elts : List (Option Int))
  | other
deriving DecidableEq

/-- `True` for an `Except.error`. -/
def isErr {ε α : Type} : Except ε α → Bool
  | .error _ => true
  | .ok _ => false

/-- The final check of `_validate_sample_shape`: when a row bound and a
target are both present, the bound must reach
`Y.unique().shape[0] * n_folds`. -/
def validateRowFloor (Y : Option (String × List Int)) (n_folds : Int) :
    Option Int → Except String Unit
  | none => .ok ()
  | some k =>
    match Y with
    | none => .ok ()
    | some y =>
      if k < (y.2.dedup.length : Int) * n_folds then
        .error "Cannot sample less than min_samples rows from Y"
      else .ok ()

/-- `_validate_sample_shape`: type check, length check, per-bound
positivity checks, and the per-class row floor
`Y.unique().shape[0] * n_folds` when both a row bound and a target are
present. -/
def validateSampleShape (Y : Option (String × List Int)) (n_folds : Int) :
    ShapeArg → Except String Unit
  | .noneArg => .ok ()
  | .other => .error "`sample_shape` must be of type `tuple` or `list`"
  | .seq l =>
    if l.length ≠ 2 then .error "`sample_shape` must be of length 2"
    else if (l.getD 0 none).any (fun k => k < 1) then
      .error "Cannot sample less than one row"
    else if (l.getD 1 none).any (fun k => k < 1) then
      .error "Cannot sample less than 1 column"
    else validateRowFloor Y n_folds (l.getD 0 none)

/-- The apostrophe character, used by Python `str` on a list of strings. -/
def quoteChar : Char := Char.ofNat 39

/-- Python `repr` of one string item in a list: quote with apostrophes. -/
def pyQuote (s : String) : String :=
  String.singleton quoteChar ++ s ++ String.singleton quoteChar

/-- Python `str` of a list of strings, item part:
`'a', 'b', 'c'`. -/
def pyStrJoin : List String → String
  | [] => ""
  | [x] => pyQuote x
  | x :: y :: t => pyQuote x ++ ", " ++ pyStrJoin (y :: t)

/-- Python `str` of a list of strings, with brackets. -/
def pyStrList (l : List String) : String :=
  "[" ++ pyStrJoin l ++ "]"

/-- The error message of `_validate_metafeature_ids`. -/
def mfErrorMsg (invalid : List String) : String :=
  "One or more requested metafeatures are not valid: " ++ pyStrList invalid

/-- `_validate_metafeature_ids`: collect every requested name missing
from `_resource_info`, and raise a single error listing all of them. -/
def validateMetafeatureIds (R : Registry) :
    Option (List String) → Except String Unit
  | none => .ok ()
  | some ids =>
    let invalid := ids.filter (fun mf => (R.resource_info.lookup mf).isNone)
    if invalid.length > 0 then .error (mfErrorMsg invalid) else .ok ()

/-- `sub` occurs as a contiguous substring of `msg`. -/
def StrContains (msg sub : String) : Prop :=
  ∃ pre post, pre ++ sub.data ++ post = msg.data

/-- The second check of `_validate_column_types`: collect the entries
whose type is neither `NUMERIC` nor `CATEGORICAL` and raise if any. -/
def validateColumnTypesInner (ct : List (String × String)) :
    Except String Unit :=
  if (ct.filter (fun p => p.2 ≠ NUMERIC ∧ p.2 ≠ CATEGORICAL)).length > 0 then
    .error "One or more input column types are not valid"
  else .ok ()

/-- `_validate_column_types`: compare the number of dict keys with the
number of feature columns (plus one if a target is given), then collect
entries whose type is neither `NUMERIC` nor `CATEGORICAL`.  The identity
of the keys is never compared with the column names. -/
def validateColumnTypes (Xcols : List String)
    (Y : Option (String × List Int)) :
    Option (List (String × String)) → Except String Unit
  | none => .ok ()
  | some ct =>
    match Y with
    | none =>
      if (ct.map Prod.fst).dedup.length ≠ Xcols.length then
        .error "The number of column_types does not match the number of features"
      else validateColumnTypesInner ct
    | some _ =>
      if (ct.map Prod.fst).dedup.length ≠ Xcols.length + 1 then
        .error "The number of column_types does not match the number of features plus the target"
      else validateColumnTypesInner ct

/-- A rank function certifying that the registry's dependency graph is
acyclic: every (non-literal) effective parameter of a resource has
strictly smaller rank.  Decidable over the finite registry. -/
def rankOkB (R : Registry) (rank : String → Nat) : Bool :=
  R.resource_info.all fun e =>
    match effParams R e.2 with
    | none => true
    | some ps => ps.all fun p =>
      match p with
      | Param.lit _ => true
      | Param.res pn => decide (rank pn < rank e.1)

/-- Session-trace invariant: no resource has been invoked twice, and
every invoked resource is present in the cache. -/
def TraceInv (s : EvalState) : Prop :=
  (s.trace.map Prod.fst).Nodup ∧ ∀ e ∈ s.trace, (s.resources e.1).isSome

/-- Semantic form of the rank certificate. -/
def RankOk (R : Registry) (rank : String → Nat) : Prop :=
  ∀ name ri ps pn, R.resource_info.lookup name = some ri →
    effParams R ri = some ps → Param.res pn ∈ ps → rank pn < rank name

/-- What one successful resolution step does to the session state:
the trace invariant is preserved, the cache only grows, the trace is
extended at the end, and every new trace entry has rank below `B`. -/
def StepOk (rank : String → Nat) (B : Nat) (s s' : EvalState) : Prop :=
  TraceInv s' ∧
  (∀ n, (s.resources n).isSome → (s'.resources n).isSome) ∧
  (∃ tl, s'.trace = s.trace ++ tl) ∧
  (∀ e ∈ s'.trace, e ∈ s.trace ∨ rank e.1 < B)

/-! ### Concrete fixtures used to exercise the theorems on explicit inputs -/

/-- The empty session cache. -/
def emptyCache : String → Option (Val × MTime) := fun _ => none

/-- A fresh session state with an empty cache. -/
def sEmpty : EvalState :=
  { resources := emptyCache, seed := 0, seed_offset := 0, trace := [] }

/-- A generic producing-function oracle. -/
def runFnW : String → List Val → Int → Int → List Val :=
  fun _ _ _ _ => [Val.intv 5]

/-- A wall-clock oracle: every call takes one time unit. -/
def elapsedW : Nat → Nat := fun _ => 1

/-- The constant rank function (enough for registries without resource
dependencies). -/
def rank0 : String → Nat := fun _ => 0

/-- The empty registry. -/
def regEmpty : Registry := { resource_info := [], functions := [] }

/-- A registry with one resource `A` produced by a parameterless
function `f`. -/
def regW : Registry :=
  { resource_info :=
      [("A", { function := "f", parameters := some [], returns := some ["A"],
               seed_offset := none })]
    functions :=
      [("f", { parameters := [], returns := ["A"], seed_offset := none })] }

/-- A session state in which `A` is already cached. -/
def sWC : EvalState :=
  { resources := updateCache emptyCache "A" (Val.intv 3, MTime.fin 0),
    seed := 0, seed_offset := 0, trace := [] }

/-- A registry with a resource `R1` depending on a resource `P`. -/
def regC1 : Registry :=
  { resource_info :=
      [("R1", { function := "f1", parameters := some [Param.res "P"],
                returns := some ["R1"], seed_offset := some 0 })]
    functions := [] }

/-- A session state in which `P` is cached as uncomputable. -/
def sC1 : EvalState :=
  { resources := updateCache emptyCache "P" (Val.nan, MTime.nan),
    seed := 0, seed_offset := 0, trace := [] }

/-- A registry with one parameterless resource producing the two outputs
`O1` and `O2` in a single call. -/
def regC3 : Registry :=
  { resource_info :=
      [("O1", { function := "g", parameters := some [],
                returns := some ["O1", "O2"], seed_offset := some 0 })]
    functions := [] }

/-- A producing-function oracle with two outputs. -/
def runFnC3 : String → List Val → Int → Int → List Val :=
  fun _ _ _ _ => [Val.intv 1, Val.intv 2]

/-- A registry where `A` (declared seed offset 1) depends on `B`
(declared seed offset 2). -/
def regC9 : Registry :=
  { resource_info :=
      [("A", { function := "fA", parameters := some [Param.res "B"],
               returns := some ["A"], seed_offset := some 1 }),
       ("B", { function := "fB", parameters := some [],
               returns := some ["B"], seed_offset := some 2 })]
    functions := [] }

/-- A registry where `A` (declared seed offset 1) has only a literal
parameter. -/
def regC9w : Registry :=
  { resource_info :=
      [("A", { function := "fA", parameters := some [Param.lit 7],
               returns := some ["A"], seed_offset := some 1 })]
    functions := [] }

/-- A producing-function oracle that reads the seed state, like
`_get_seed`. -/
def runFnC9 : String → List Val → Int → Int → List Val :=
  fun _ _ seed off => [Val.intv (seed + off)]

/-- A fresh session state with base seed 10. -/
def sC9 : EvalState :=
  { resources := emptyCache, seed := 10, seed_offset := 0, trace := [] }

/-- A registry containing only the metafeature `NumberOfInstances`. -/
def regC7 : Registry :=
  { resource_info :=
      [("NumberOfInstances",
        { function := "h", parameters := some [],
          returns := some ["NumberOfInstances"], seed_offset := none })]
    functions := [] }

/-- A feature table with an all-missing column `a` and a column `b`
with one present value. -/
def xC10 : List (String × List (Option Int)) :=
  [("a", [none, none]), ("b", [some 1, none])]

lemma lookup_mem {β : Type} :
    ∀ (l : List (String × β)) (a : String) (b : β),
      l.lookup a = some b → (a, b) ∈ l := by
  intro l
  induction l with
  | nil => intro a b h; simp [List.lookup] at h
  | cons hd tl ih =>
    intro a b h
    cases hd with
    | mk k v =>
      rw [List.lookup] at h
      by_cases hk : a == k
      · simp [hk] at h
        simp at hk
        subst hk h
        exact List.mem_cons_self _ _
      · simp [hk] at h
        exact List.mem_cons_of_mem _ (ih a b h)

lemma rankOkB_sound {R : Registry} {rank : String → Nat}
    (h : rankOkB R rank = true) : RankOk R rank := by
  intro name ri ps pn hlk hps hmem
  have hentry : (name, ri) ∈ R.resource_info := lookup_mem _ _ _ hlk
  have hall := (List.all_eq_true.mp h) _ hentry
  simp only at hall
  rw [hps] at hall
  have := (List.all_eq_true.mp hall) _ hmem
  simpa using this

lemma updateCache_isSome {c : String → Option (Val × MTime)} {n m : String}
    {vt : Val × MTime} (h : (c m).isSome) :
    ((updateCache c n vt) m).isSome := by
  unfold updateCache
  by_cases hm : m = n <;> simp [hm, h]

lemma storeResults_isSome {c : String → Option (Val × MTime)} {t : MTime} :
    ∀ (l : List (String × Val)) (n : String), (c n).isSome →
      ((storeResults c l t) n).isSome := by
  intro l
  induction l generalizing c with
  | nil => intro n h; simpa [storeResults] using h
  | cons hd tl ih =>
    intro n h
    rw [storeResults, List.foldl_cons]
    exact ih _ (updateCache_isSome h)

lemma storeResults_not_mem {t : MTime} :
    ∀ (l : List (String × Val)) (c : String → Option (Val × MTime))
      (n : String), n ∉ l.map Prod.fst → storeResults c l t n = c n := by
  intro l
  induction l with
  | nil => intro c n _; rfl
  | cons hd tl ih =>
    intro c n h
    simp only [List.map_cons, List.mem_cons] at h
    push_neg at h
    rw [storeResults, List.foldl_cons]
    have := ih (updateCache c hd.1 (hd.2, t)) n h.2
    rw [storeResults] at this
    rw [this]
    unfold updateCache
    simp [h.1]

lemma storeResults_mem_time {t : MTime} :
    ∀ (l : List (String × Val)) (c : String → Option (Val × MTime))
      (n : String), n ∈ l.map Prod.fst →
      ∃ w, storeResults c l t n = some (w, t) := by
  intro l
  induction l with
  | nil => intro c n h; simp at h
  | cons hd tl ih =>
    intro c n h
    rw [storeResults, List.foldl_cons]
    by_cases hmem : n ∈ tl.map Prod.fst
    · exact ih _ n hmem
    · simp only [List.map_cons, List.mem_cons] at h
      rcases h with h | h
      · have hnm := @storeResults_not_mem t tl
          (updateCache c hd.1 (hd.2, t)) n hmem
        simp only [storeResults] at hnm ⊢
        rw [hnm]
        unfold updateCache
        simp [h]
      · exact absurd h hmem

lemma storeResults_mem_const {t : MTime} {w : Val} :
    ∀ (l : List (String × Val)) (c : String → Option (Val × MTime))
      (n : String), (∀ pr ∈ l, pr.2 = w) → n ∈ l.map Prod.fst →
      storeResults c l t n = some (w, t) := by
  intro l
  induction l with
  | nil => intro c n _ h; simp at h
  | cons hd tl ih =>
    intro c n hw h
    rw [storeResults, List.foldl_cons]
    by_cases hmem : n ∈ tl.map Prod.fst
    · exact ih _ n (fun pr hpr => hw pr (List.mem_cons_of_mem _ hpr)) hmem
    · simp only [List.map_cons, List.mem_cons] at h
      rcases h with h | h
      · have hnm := @storeResults_not_mem t tl
          (updateCache c hd.1 (hd.2, t)) n hmem
        simp only [storeResults] at hnm ⊢
        rw [hnm]
        unfold updateCache
        have : hd.2 = w := hw hd (List.mem_cons_self _ _)
        simp [h, this]
      · exact absurd h hmem

lemma zip_replicate {α β : Type} (a : β) :
    ∀ (l : List α), l.zip (List.replicate l.length a) = l.map (fun x => (x, a))
  | [] => rfl
  | x :: t => by
    simp [List.replicate, List.zip_cons_cons, zip_replicate a t]

lemma mTime_zero_add : ∀ t : MTime, MTime.add (MTime.fin 0) t = t
  | .nan => rfl
  | .fin _ => by simp [MTime.add]

lemma mTime_add_assoc (a b c : MTime) :
    MTime.add (MTime.add a b) c = MTime.add a (MTime.add b c) := by
  cases a <;> cases b <;> cases c <;> simp [MTime.add, Nat.add_assoc]

lemma assignSeedOffset_fields {R : Registry} {ri : ResourceInfo}
    {s s' : EvalState} (h : assignSeedOffset R ri s = some s') :
    s'.resources = s.resources ∧ s'.trace = s.trace ∧ s'.seed = s.seed := by
  unfold assignSeedOffset at h
  split at h
  · cases h; exact ⟨rfl, rfl, rfl⟩
  · split at h
    · exact absurd h (by simp)
    · split at h
      · cases h; exact ⟨rfl, rfl, rfl⟩
      · cases h; exact ⟨rfl, rfl, rfl⟩

lemma traceInv_congr {s s' : EvalState} (ht : s'.trace = s.trace)
    (hr : s'.resources = s.resources) (h : TraceInv s) : TraceInv s' := by
  unfold TraceInv at *
  rw [ht, hr]
  exact h

lemma stepOk_refl {rank : String → Nat} {B : Nat} {s : EvalState}
    (h : TraceInv s) : StepOk rank B s s :=
  ⟨h, fun _ h => h, ⟨[], by simp⟩, fun e he => Or.inl he⟩

lemma stepOk_trans {rank : String → Nat} {B : Nat} {s1 s2 s3 : EvalState}
    (h12 : StepOk rank B s1 s2) (h23 : StepOk rank B s2 s3) :
    StepOk rank B s1 s3 := by
  obtain ⟨hti2, hm12, ⟨tl1, htl1⟩, hb12⟩ := h12
  obtain ⟨hti3, hm23, ⟨tl2, htl2⟩, hb23⟩ := h23
  refine ⟨hti3, fun n h => hm23 n (hm12 n h), ⟨tl1 ++ tl2, ?_⟩, ?_⟩
  · rw [htl2, htl1, List.append_assoc]
  · intro e he
    rcases hb23 e he with h | h
    · exact hb12 e h
    · exact Or.inr h

lemma stepOk_mono_bound {rank : String → Nat} {B B' : Nat}
    {s s' : EvalState} (hB : B ≤ B') (h : StepOk rank B s s') :
    StepOk rank B' s s' := by
  obtain ⟨hti, hm, htl, hb⟩ := h
  refine ⟨hti, hm, htl, fun e he => ?_⟩
  rcases hb e he with h | h
  · exact Or.inl h
  · exact Or.inr (lt_of_lt_of_le h hB)

lemma getParamListAux_inv {rank : String → Nat} {B : Nat}
    {recur : EvalState → String → Option (Val × MTime × EvalState)} :
    ∀ (ps : List Param),
      (∀ pn, Param.res pn ∈ ps → ∀ s v t s', recur s pn = some (v, t, s') →
        TraceInv s → StepOk rank B s s') →
      ∀ s res, getParamListAux recur s ps = some res → TraceInv s →
        StepOk rank B s res.2.2 := by
  intro ps
  induction ps with
  | nil =>
    intro _ s res h hti
    rw [getParamListAux] at h
    cases h
    exact stepOk_refl hti
  | cons p ps ih =>
    intro hrec s res h hti
    rw [getParamListAux] at h
    split at h
    · exact absurd h (by simp)
    · rename_i v tv s1 hstep
      have hstep1 : StepOk rank B s s1 := by
        cases p with
        | lit n =>
          simp [paramStep] at hstep
          obtain ⟨_, _, hs⟩ := hstep
          subst hs
          exact stepOk_refl hti
        | res pname =>
          exact hrec pname (List.mem_cons_self _ _) s v tv s1 hstep hti
      have hti1 : TraceInv s1 := hstep1.1
      split at h
      · cases h
        exact hstep1
      · split at h
        · exact absurd h (by simp)
        · rename_i rest trest s2 hrest
          cases h
          exact stepOk_trans hstep1
            (ih (fun pn hmem => hrec pn (List.mem_cons_of_mem _ hmem))
              s1 (rest, trest, s2) hrest hti1)

lemma getResource_inv {R : Registry} {rank : String → Nat}
    {runFn : String → List Val → Int → Int → List Val} {elapsed : Nat → Nat}
    (hrk : RankOk R rank) :
    ∀ (fuel : Nat) (name : String) (s : EvalState) res,
      getResource R runFn elapsed fuel s name = some res → TraceInv s →
      StepOk rank (rank name + 1) s res.2.2 := by
  intro fuel
  induction fuel with
  | zero => intro name s res h _; simp [getResource] at h
  | succ fuel ih =>
    intro name s res h hti
    rw [getResource] at h
    split at h
    · rename_i vt _
      cases h
      exact stepOk_refl hti
    · rename_i hcache
      split at h
      · exact absurd h (by simp)
      · rename_i ri hri
        split at h
        · exact absurd h (by simp)
        · rename_i rets hrets
          split at h
          · exact absurd h (by simp)
          · rename_i popt ptime s1 hpar
            have hstep1 : StepOk rank (rank name) s s1 := by
              rw [getParametersAux] at hpar
              split at hpar
              · exact absurd hpar (by simp)
              · rename_i ri' hri'
                split at hpar
                · exact absurd hpar (by simp)
                · rename_i params hps
                  split at hpar
                  · exact absurd hpar (by simp)
                  · rename_i sOff hofs
                    obtain ⟨hres_eq, htr_eq, _⟩ := assignSeedOffset_fields hofs
                    have htiOff : TraceInv sOff := traceInv_congr htr_eq hres_eq hti
                    have hrec : ∀ pn, Param.res pn ∈ params →
                        ∀ s' v t s'', getResource R runFn elapsed fuel s' pn = some (v, t, s'') →
                        TraceInv s' → StepOk rank (rank name) s' s'' := by
                      intro pn hmem s' v t s'' hg hti'
                      have hlt : rank pn < rank name := hrk name ri' params pn hri' hps hmem
                      exact stepOk_mono_bound (by omega) (ih pn s' (v, t, s'') hg hti')
                    have H := getParamListAux_inv params hrec sOff (popt, ptime, s1) hpar htiOff
                    obtain ⟨hti1, hm, ⟨tl, htl⟩, hb⟩ := H
                    refine ⟨hti1, ?_, ⟨tl, ?_⟩, ?_⟩
                    · intro n hn
                      apply hm
                      rw [hres_eq]
                      exact hn
                    · rw [htl, htr_eq]
                    · intro e he
                      rcases hb e he with hin | hlt
                      · rw [htr_eq] at hin
                        exact Or.inl hin
                      · exact Or.inr hlt
            obtain ⟨hti1, hm1, ⟨tl, htl⟩, hb1⟩ := hstep1
            split at h
            · -- nan path: no invocation, all outputs stored as (nan, nan)
              simp only [] at h
              split at h
              · exact absurd h (by simp)
              · rename_i vt hc2
                cases h
                refine ⟨⟨hti1.1, ?_⟩, ?_, ⟨tl, htl⟩, ?_⟩
                · intro e he
                  exact storeResults_isSome _ _ (hti1.2 e he)
                · intro n hn
                  exact storeResults_isSome _ _ (hm1 n hn)
                · intro e he
                  rcases hb1 e he with hin | hlt
                  · exact Or.inl hin
                  · exact Or.inr (by omega)
            · -- invocation path
              simp only [] at h
              split at h
              · exact absurd h (by simp)
              · rename_i pvals vt hc2
                cases h
                have hname_notin : name ∉ s1.trace.map Prod.fst := by
                  intro hmem
                  obtain ⟨e, he, heq⟩ := List.mem_map.mp hmem
                  rcases hb1 e he with hin | hlt
                  · have hsome := hti.2 e hin
                    rw [heq, hcache] at hsome
                    simp at hsome
                  · rw [heq] at hlt
                    exact absurd hlt (lt_irrefl _)
                refine ⟨⟨?_, ?_⟩, ?_, ⟨tl ++ [(name, s1.seed_offset)], ?_⟩, ?_⟩
                · simp only [List.map_append]
                  rw [List.nodup_append]
                  refine ⟨hti1.1, by simp, ?_⟩
                  intro a ha hb
                  simp at hb
                  subst hb
                  exact hname_notin ha
                · intro e he
                  simp only [List.mem_append, List.mem_singleton] at he
                  rcases he with he | he
                  · exact storeResults_isSome _ _ (hti1.2 e he)
                  · subst he
                    simp only [hc2, Option.isSome_some]
                · intro n hn
                  exact storeResults_isSome _ _ (hm1 n hn)
                · simp only [htl, List.append_assoc]
                · intro e he
                  simp only [List.mem_append, List.mem_singleton] at he
                  rcases he with he | he
                  · rcases hb1 e he with hin | hlt
                    · exact Or.inl hin
                    · exact Or.inr (by omega)
                  · subst he
                    exact Or.inr (Nat.lt_succ_self _)

lemma getParamListAux_append
    {recur : EvalState → String → Option (Val × MTime × EvalState)} :
    ∀ (l1 : List Param) (s : EvalState) (vs : List Val) (t1 : MTime)
      (s1 : EvalState) (l2 : List Param),
      getParamListAux recur s l1 = some (some vs, t1, s1) →
      getParamListAux recur s (l1 ++ l2) =
        (match getParamListAux recur s1 l2 with
         | none => none
         | some (rest, t2, s2) =>
           some (rest.map (fun ws => vs ++ ws), MTime.add t1 t2, s2)) := by
  intro l1
  induction l1 with
  | nil =>
    intro s vs t1 s1 l2 h
    rw [getParamListAux] at h
    cases h
    simp only [List.nil_append]
    cases hrest : getParamListAux recur s l2 with
    | none => simp
    | some r3 =>
      obtain ⟨rest, t2, s2⟩ := r3
      simp [mTime_zero_add]
  | cons p l1 ih =>
    intro s vs t1 s1 l2 h
    rw [getParamListAux] at h
    split at h
    · exact absurd h (by simp)
    · rename_i v tv sa hstep
      split at h
      · exact absurd h (by simp)
      · rename_i hv
        split at h
        · exact absurd h (by simp)
        · rename_i rest trest s2 hrest
          simp only [Option.some.injEq, Prod.mk.injEq] at h
          obtain ⟨hmap, ht1, hs1⟩ := h
          cases rest with
          | none => exact absurd hmap (by simp)
          | some vs' =>
            simp only [Option.map_some', Option.some.injEq] at hmap
            subst ht1 hs1
            rw [List.cons_append, getParamListAux]
            simp only [hstep]
            rw [if_neg hv]
            rw [ih sa vs' trest s2 l2 hrest]
            cases hrest2 : getParamListAux recur s2 l2 with
            | none => simp
            | some r4 =>
              obtain ⟨rest2, t2, s3⟩ := r4
              cases rest2 with
              | none => simp [← hmap, mTime_add_assoc]
              | some ws =>
                simp [← hmap, mTime_add_assoc]

lemma anyTD_some {f : String → Option Bool} :
    ∀ (l : List Param) (b : Bool), anyTD f l = some b →
      (b = true ↔ ∃ pn, Param.res pn ∈ l ∧ f pn = some true) := by
  intro l
  induction l with
  | nil =>
    intro b h
    simp only [anyTD, Option.some.injEq] at h
    subst h
    simp
  | cons p ps ih =>
    intro b h
    simp only [anyTD] at h
    split at h
    · exact absurd h (by simp)
    · rename_i n
      split at h
      · exact absurd h (by simp)
      · rename_i hfn
        cases h
        exact iff_of_true rfl ⟨n, List.mem_cons_self _ _, hfn⟩
      · rename_i hfn
        rw [ih b h]
        constructor
        · rintro ⟨pn, hmem, ht⟩
          exact ⟨pn, List.mem_cons_of_mem _ hmem, ht⟩
        · rintro ⟨pn, hmem, ht⟩
          rcases List.mem_cons.mp hmem with heq | hmem'
          · injection heq with h'
            subst h'
            rw [hfn] at ht
            exact absurd ht (by simp)
          · exact ⟨pn, hmem', ht⟩

lemma resolveAll_traceInv {R : Registry} {rank : String → Nat}
    {runFn : String → List Val → Int → Int → List Val} {elapsed : Nat → Nat}
    (hrk : RankOk R rank) :
    ∀ (reqs : List String) (fuel : Nat) (s s' : EvalState),
      resolveAll R runFn elapsed fuel s reqs = some s' → TraceInv s →
      TraceInv s' := by
  intro reqs
  induction reqs with
  | nil =>
    intro fuel s s' h hti
    rw [resolveAll] at h
    cases h
    exact hti
  | cons r rs ih =>
    intro fuel s s' h hti
    rw [resolveAll] at h
    split at h
    · exact absurd h (by simp)
    · rename_i v t smid hg
      exact ih fuel smid s' h (getResource_inv hrk fuel r s _ hg hti).1

lemma getParamListAux_cached {R : Registry}
    {runFn : String → List Val → Int → Int → List Val} {elapsed : Nat → Nat}
    (fuel : Nat) :
    ∀ (params : List Param) (s : EvalState),
      (∀ p ∈ params, (∃ n, p = Param.lit n) ∨
        (∃ pn v t, p = Param.res pn ∧ s.resources pn = some (v, t) ∧
          v ≠ Val.nan)) →
      ∃ vals t,
        getParamListAux (getResource R runFn elapsed (fuel + 1)) s params =
          some (some vals, t, s) := by
  intro params
  induction params with
  | nil =>
    intro s _
    exact ⟨[], MTime.fin 0, rfl⟩
  | cons p ps ih =>
    intro s hcond
    rcases hcond p (List.mem_cons_self _ _) with ⟨n, rfl⟩ | ⟨pn, v, t, rfl, hc, hv⟩
    · obtain ⟨vals, tr, hrest⟩ :=
        ih s (fun q hq => hcond q (List.mem_cons_of_mem _ hq))
      refine ⟨Val.intv n :: vals, MTime.add (MTime.fin 0) tr, ?_⟩
      rw [getParamListAux]
      simp only [paramStep]
      rw [if_neg (by simp)]
      rw [hrest]
      rfl
    · obtain ⟨vals, tr, hrest⟩ :=
        ih s (fun q hq => hcond q (List.mem_cons_of_mem _ hq))
      have hhit : getResource R runFn elapsed (fuel + 1) s pn = some (v, t, s) := by
        rw [getResource]
        simp [hc]
      refine ⟨v :: vals, MTime.add t tr, ?_⟩
      rw [getParamListAux]
      simp only [paramStep, hhit]
      rw [if_neg hv]
      rw [hrest]
      rfl

lemma pyStrJoin_contains :
    ∀ (l : List String) (x : String), x ∈ l → StrContains (pyStrJoin l) x := by
  intro l
  induction l with
  | nil => intro x hx; simp at hx
  | cons a t ih =>
    intro x hx
    cases t with
    | nil =>
      simp only [List.mem_singleton] at hx
      subst hx
      refine ⟨(String.singleton quoteChar).data, (String.singleton quoteChar).data, ?_⟩
      simp [pyStrJoin, pyQuote, String.data_append]
    | cons b t2 =>
      rcases List.mem_cons.mp hx with rfl | hx'
      · refine ⟨(String.singleton quoteChar).data,
          (String.singleton quoteChar).data ++ (", " : String).data ++
            (pyStrJoin (b :: t2)).data, ?_⟩
        simp [pyStrJoin, pyQuote, String.data_append]
      · obtain ⟨pre, post, hpre⟩ := ih x hx'
        refine ⟨(pyQuote a ++ ", ").data ++ pre, post, ?_⟩
        simp only [pyStrJoin, String.data_append, List.append_assoc, ← hpre]

lemma mfErrorMsg_contains {l : List String} {x : String} (hx : x ∈ l) :
    StrContains (mfErrorMsg l) x := by
  obtain ⟨pre, post, hpre⟩ := pyStrJoin_contains l x hx
  refine ⟨("One or more requested metafeatures are not valid: " : String).data ++
    ("[" : String).data ++ pre, post ++ ("]" : String).data, ?_⟩
  simp only [mfErrorMsg, pyStrList, String.data_append, List.append_assoc]
  rw [← hpre]
  simp [List.append_assoc]

/-! ### Claim theorems -/

/-- Claim C1: if, while resolving resource `name` (cache miss), some
parameter `b` in its effective parameter list resolves to the
uncomputable marker (`np.nan`), then the producing function of `name` is
not invoked (the ghost trace is unchanged from the point of the abort),
the resolver returns the uncomputable marker with the NaN compute-time
sentinel, and every declared output of `name` is cached as
`(np.nan, np.nan)` — so the marker propagates to every resource whose
resolution chain passes through `name`. -/
theorem c1_nan_propagation (R : Registry)
    (runFn : String → List Val → Int → Int → List Val) (elapsed : Nat → Nat)
    (fuel : Nat) (s : EvalState) (name : String) (ri : ResourceInfo)
    (rets : List String) (ps1 ps2 : List Param) (b : String)
    (sOff s1 sb : EvalState) (vs : List Val) (t1 tb : MTime)
    (hmiss : s.resources name = none)
    (hri : R.resource_info.lookup name = some ri)
    (hrets : effReturns R ri = some rets)
    (hname : name ∈ rets)
    (hps : effParams R ri = some (ps1 ++ Param.res b :: ps2))
    (hofs : assignSeedOffset R ri s = some sOff)
    (hpre : getParamListAux (getResource R runFn elapsed fuel) sOff ps1 =
      some (some vs, t1, s1))
    (hb : getResource R runFn elapsed fuel s1 b = some (Val.nan, tb, sb)) :
    ∃ s', getResource R runFn elapsed (fuel + 1) s name =
        some (Val.nan, MTime.nan, s') ∧
      s'.trace = sb.trace ∧
      ∀ out ∈ rets, s'.resources out = some (Val.nan, MTime.nan) := by
  have hl2 : getParamListAux (getResource R runFn elapsed fuel) s1
      (Param.res b :: ps2) = some (none, MTime.fin 0, sb) := by
    rw [getParamListAux]
    simp [paramStep, hb]
  have hloop : getParamListAux (getResource R runFn elapsed fuel) sOff
      (ps1 ++ Param.res b :: ps2) =
      some (none, MTime.add t1 (MTime.fin 0), sb) := by
    rw [getParamListAux_append ps1 sOff vs t1 s1 _ hpre, hl2]
    rfl
  have hpar : getParametersAux R (getResource R runFn elapsed fuel) s name =
      some (none, MTime.add t1 (MTime.fin 0), sb) := by
    rw [getParametersAux]
    simp only [hri, hps, hofs]
    exact hloop
  have hzip : rets.zip (List.replicate rets.length Val.nan) =
      rets.map (fun n => (n, Val.nan)) := zip_replicate _ rets
  have hall : ∀ pr ∈ rets.map (fun n => (n, Val.nan)), pr.2 = Val.nan := by
    intro pr hpr
    obtain ⟨x, _, rfl⟩ := List.mem_map.mp hpr
    rfl
  have hstore : ∀ out ∈ rets,
      storeResults sb.resources
        (rets.zip (List.replicate rets.length Val.nan)) MTime.nan out =
      some (Val.nan, MTime.nan) := by
    intro out hout
    rw [hzip]
    exact storeResults_mem_const _ _ _ hall (by simpa using hout)
  have hcn := hstore name hname
  rw [getResource]
  simp only [hmiss, hri, hrets, hpar, hcn]
  exact ⟨_, rfl, rfl, hstore⟩

/-- Claim C1, exercised: with `P` cached as uncomputable and `R1`
depending on `P`, resolving `R1` yields the marker with NaN time, no
invocation, and `R1` cached as `(np.nan, np.nan)`. -/
theorem c1_nan_propagation_witness :
    Option.elim (getResource regC1 runFnW elapsedW 2 sC1 "R1") False
      (fun r => r.1 = Val.nan ∧ r.2.1 = MTime.nan ∧ r.2.2.trace = [] ∧
        r.2.2.resources "R1" = some (Val.nan, MTime.nan)) := by
  obtain ⟨s', heq, htr, hout⟩ :=
    c1_nan_propagation regC1 runFnW elapsedW 1 sC1 "R1"
      { function := "f1", parameters := some [Param.res "P"],
        returns := some ["R1"], seed_offset := some 0 }
      ["R1"] [] [] "P" sC1 sC1 sC1 [] (MTime.fin 0) MTime.nan
      rfl rfl rfl (by decide) rfl rfl rfl rfl
  rw [heq]
  exact ⟨rfl, rfl, htr, hout "R1" (by decide)⟩

/-- Claim C2: resolving a resource already present in the session cache
returns the cached `(value, time)` pair with the session state unchanged
(no producing function invoked); and over a whole session starting with
an empty invocation trace, on an acyclic registry (certified by a rank
function), resolving any list of requested resources in any order
invokes each resource's producing function at most once — the final
trace has no duplicate resource names. -/
theorem c2_memoized_at_most_once (R : Registry)
    (runFn : String → List Val → Int → Int → List Val) (elapsed : Nat → Nat)
    (rank : String → Nat) :
    (∀ (fuel : Nat) (s : EvalState) (name : String) (v : Val) (t : MTime),
      s.resources name = some (v, t) →
      getResource R runFn elapsed (fuel + 1) s name = some (v, t, s)) ∧
    (∀ (reqs : List String) (fuel : Nat) (s0 s' : EvalState),
      rankOkB R rank = true → s0.trace = [] →
      resolveAll R runFn elapsed fuel s0 reqs = some s' →
      (s'.trace.map Prod.fst).Nodup) := by
  constructor
  · intro fuel s name v t h
    rw [getResource]
    simp [h]
  · intro reqs fuel s0 s' hrk htr h
    have hti0 : TraceInv s0 := by
      constructor
      · rw [htr]; simp
      · intro e he
        rw [htr] at he
        simp at he
    exact (resolveAll_traceInv (rankOkB_sound hrk) reqs fuel s0 s' h hti0).1

/-- Claim C2, exercised: a cache hit returns the cached pair unchanged,
and resolving the request list `["A", "A"]` from an empty session
invokes `A`'s producing function only once. -/
theorem c2_memoized_at_most_once_witness :
    getResource regW runFnW elapsedW 1 sWC "A" =
      some (Val.intv 3, MTime.fin 0, sWC) ∧
    Option.elim (resolveAll regW runFnW elapsedW 2 sEmpty ["A", "A"]) True
      (fun s' => (s'.trace.map Prod.fst).Nodup) := by
  constructor
  · exact (c2_memoized_at_most_once regW runFnW elapsedW rank0).1 0 sWC "A"
      (Val.intv 3) (MTime.fin 0) (by decide)
  · cases hres : resolveAll regW runFnW elapsedW 2 sEmpty ["A", "A"] with
    | none => exact trivial
    | some s' =>
      simp only [Option.elim]
      exact (c2_memoized_at_most_once regW runFnW elapsedW rank0).2
        ["A", "A"] 2 sEmpty s' (by decide) rfl hres

/-- Claim C3: when a resource with more than one declared output is
resolved on a cache miss and its parameters resolve successfully, the
producing function is invoked exactly once (one new trace entry), and
every declared output is stored in the cache under its own name with the
same recorded compute time — the cumulative parameter-resolution time
plus that one call's elapsed time. -/
theorem c3_shared_output_time (R : Registry)
    (runFn : String → List Val → Int → Int → List Val) (elapsed : Nat → Nat)
    (fuel : Nat) (s : EvalState) (name : String) (ri : ResourceInfo)
    (rets : List String) (pvals : List Val) (ptime : MTime) (s1 : EvalState)
    (hmiss : s.resources name = none)
    (hri : R.resource_info.lookup name = some ri)
    (hrets : effReturns R ri = some rets)
    (hlen : 1 < rets.length)
    (hname : name ∈ rets)
    (hpar : getParameters R runFn elapsed fuel s name =
      some (some pvals, ptime, s1))
    (harity : (runFn ri.function pvals s1.seed s1.seed_offset).length =
      rets.length) :
    ∃ v s', getResource R runFn elapsed (fuel + 1) s name =
        some (v, MTime.add ptime (MTime.fin (elapsed s1.trace.length)), s') ∧
      s'.trace = s1.trace ++ [(name, s1.seed_offset)] ∧
      ∀ out ∈ rets, ∃ w, s'.resources out =
        some (w, MTime.add ptime (MTime.fin (elapsed s1.trace.length))) := by
  rw [getParameters] at hpar
  have hfst : (rets.zip (runFn ri.function pvals s1.seed s1.seed_offset)).map
      Prod.fst = rets :=
    List.map_fst_zip _ _ (le_of_eq harity.symm)
  have hstore : ∀ out ∈ rets, ∃ w,
      storeResults s1.resources
        (rets.zip (runFn ri.function pvals s1.seed s1.seed_offset))
        (MTime.add ptime (MTime.fin (elapsed s1.trace.length))) out =
      some (w, MTime.add ptime (MTime.fin (elapsed s1.trace.length))) := by
    intro out hout
    exact storeResults_mem_time _ _ out (by rw [hfst]; exact hout)
  obtain ⟨w, hw⟩ := hstore name hname
  rw [getResource]
  simp only [hmiss, hri, hrets, hpar]
  simp only [hw]
  exact ⟨w, _, rfl, rfl, hstore⟩

/-- Claim C3, exercised: the resource `O1` declares outputs
`["O1", "O2"]`; after one invocation both are cached with the same
compute time. -/
theorem c3_shared_output_time_witness :
    Option.elim (getResource regC3 runFnC3 elapsedW 2 sEmpty "O1") False
      (fun r => r.2.1 = MTime.fin 1 ∧ r.2.2.trace = [("O1", 0)] ∧
        (r.2.2.resources "O1").map Prod.snd = some (MTime.fin 1) ∧
        (r.2.2.resources "O2").map Prod.snd = some (MTime.fin 1)) := by
  obtain ⟨v, s', heq, htr, hout⟩ :=
    c3_shared_output_time regC3 runFnC3 elapsedW 1 sEmpty "O1"
      { function := "g", parameters := some [],
        returns := some ["O1", "O2"], seed_offset := some 0 }
      ["O1", "O2"] [] (MTime.fin 0) sEmpty
      rfl rfl rfl (by decide) (by decide) rfl rfl
  rw [heq]
  obtain ⟨w1, hw1⟩ := hout "O1" (by decide)
  obtain ⟨w2, hw2⟩ := hout "O2" (by decide)
  refine ⟨rfl, ?_, ?_, ?_⟩
  · rw [htr]; rfl
  · rw [hw1]; rfl
  · rw [hw2]; rfl

/-- Claim C4: the target-dependence analysis, when it returns a result,
returns `true` exactly when the resource is the target `Y` itself
(hardcoded true), or it is not the hardcoded-false resource `XSample`
and some parameter in its descriptor-specific parameter list or in its
producing function's declared parameter list is itself target-dependent
under the same recursive definition. -/
theorem c4_target_dependence (R : Registry) (fuel : Nat) (name : String)
    (b : Bool) (h : isTargetDependent R (fuel + 1) name = some b) :
    b = true ↔ (name = "Y" ∨ (name ≠ "XSample" ∧
      ∃ pn, (∃ ri, R.resource_info.lookup name = some ri ∧
        (Param.res pn ∈ ri.parameters.getD [] ∨
          ∃ fi, R.functions.lookup ri.function = some fi ∧
            Param.res pn ∈ fi.parameters)) ∧
        isTargetDependent R fuel pn = some true)) := by
  rw [isTargetDependent] at h
  by_cases hY : name = "Y"
  · rw [if_pos hY] at h
    cases h
    simp [hY]
  · rw [if_neg hY] at h
    by_cases hX : name = "XSample"
    · rw [if_pos hX] at h
      cases h
      simp [hX, hY]
    · rw [if_neg hX] at h
      split at h
      · exact absurd h (by simp)
      · rename_i ri hri
        split at h
        · exact absurd h (by simp)
        · rename_i hTD1
          cases h
          have h1 := anyTD_some (ri.parameters.getD []) true hTD1
          obtain ⟨pn, hmem, htd⟩ := h1.mp rfl
          exact iff_of_true rfl
            (Or.inr ⟨hX, pn, ⟨ri, hri, Or.inl hmem⟩, htd⟩)
        · rename_i hTD1
          split at h
          · exact absurd h (by simp)
          · rename_i fi hfi
            have h2 := anyTD_some fi.parameters b h
            constructor
            · intro hb
              obtain ⟨pn, hmem, htd⟩ := h2.mp hb
              exact Or.inr ⟨hX, pn, ⟨ri, hri, Or.inr ⟨fi, hfi, hmem⟩⟩, htd⟩
            · rintro (hy | ⟨_, pn, ⟨ri', hri', hmem'⟩, htd⟩)
              · exact absurd hy hY
              · rw [hri] at hri'
                cases hri'
                rcases hmem' with hmem' | ⟨fi', hfi', hmem'⟩
                · exact absurd ((anyTD_some _ false hTD1).mpr ⟨pn, hmem', htd⟩)
                    (by simp)
                · rw [hfi] at hfi'
                  cases hfi'
                  exact h2.mpr ⟨pn, hmem', htd⟩

/-- Claim C4, exercised at the hardcoded-true resource `Y` on the empty
registry. -/
theorem c4_target_dependence_witness :
    (true = true ↔ ("Y" = "Y" ∨ ("Y" ≠ "XSample" ∧
      ∃ pn, (∃ ri, regEmpty.resource_info.lookup "Y" = some ri ∧
        (Param.res pn ∈ ri.parameters.getD [] ∨
          ∃ fi, regEmpty.functions.lookup ri.function = some fi ∧
            Param.res pn ∈ fi.parameters)) ∧
        isTargetDependent regEmpty 0 pn = some true))) :=
  c4_target_dependence regEmpty 0 "Y" true rfl

/-- Claim C5 (amended): in the `compute` loop, a target-dependent
metafeature is gated: with no target it reports the `NO_TARGETS`
sentinel, with a numeric target it reports the `NUMERIC_TARGETS`
sentinel; in both cases the evaluator is not invoked for that resource
(the session state is returned unchanged) and the reported compute time
is the `None` sentinel (`Option.none`) — not the number zero, which is
what the original claim asserted. -/
theorem c5_target_gating_none_time (R : Registry)
    (runFn : String → List Val → Int → Int → List Val) (elapsed : Nat → Nat)
    (ct : List (String × String)) (fuelT fuelR : Nat) (id : String)
    (htd : isTargetDependent R fuelT id = some true) :
    (∀ s : EvalState,
      computeEntry R runFn elapsed none ct fuelT fuelR s id =
        some ((Val.strv NO_TARGETS, none), s)) ∧
    (∀ (s : EvalState) (y : String × List Int), ct.lookup y.1 = some NUMERIC →
      computeEntry R runFn elapsed (some y) ct fuelT fuelR s id =
        some ((Val.strv NUMERIC_TARGETS, none), s)) ∧
    (∀ (s : EvalState) (ids : List String) out, id ∈ ids →
      computeLoop R runFn elapsed none ct fuelT fuelR s ids = some out →
      (id, Val.strv NO_TARGETS, (none : Option MTime)) ∈ out.1) ∧
    (∀ (s : EvalState) (y : String × List Int) (ids : List String) out,
      ct.lookup y.1 = some NUMERIC → id ∈ ids →
      computeLoop R runFn elapsed (some y) ct fuelT fuelR s ids = some out →
      (id, Val.strv NUMERIC_TARGETS, (none : Option MTime)) ∈ out.1) := by
  have hA : ∀ s : EvalState,
      computeEntry R runFn elapsed none ct fuelT fuelR s id =
        some ((Val.strv NO_TARGETS, none), s) := by
    intro s
    rw [computeEntry]
    simp [htd]
  have hB : ∀ (s : EvalState) (y : String × List Int),
      ct.lookup y.1 = some NUMERIC →
      computeEntry R runFn elapsed (some y) ct fuelT fuelR s id =
        some ((Val.strv NUMERIC_TARGETS, none), s) := by
    intro s y hlk
    rw [computeEntry]
    simp [htd, hlk]
  refine ⟨hA, hB, ?_, ?_⟩
  · intro s ids
    induction ids generalizing s with
    | nil => intro out hmem _; simp at hmem
    | cons i ids ih =>
      intro out hmem hloop
      rw [computeLoop] at hloop
      split at hloop
      · exact absurd hloop (by simp)
      · rename_i v t s' hentry
        split at hloop
        · exact absurd hloop (by simp)
        · rename_i outl s'' hrest
          cases hloop
          rcases List.mem_cons.mp hmem with rfl | hmem'
          · rw [hA s] at hentry
            cases hentry
            exact List.mem_cons_self _ _
          · exact List.mem_cons_of_mem _ (ih s' (outl, s'') hmem' hrest)
  · intro s y ids
    induction ids generalizing s with
    | nil => intro out _ hmem _; simp at hmem
    | cons i ids ih =>
      intro out hlk hmem hloop
      rw [computeLoop] at hloop
      split at hloop
      · exact absurd hloop (by simp)
      · rename_i v t s' hentry
        split at hloop
        · exact absurd hloop (by simp)
        · rename_i outl s'' hrest
          cases hloop
          rcases List.mem_cons.mp hmem with rfl | hmem'
          · rw [hB s y hlk] at hentry
            cases hentry
            exact List.mem_cons_self _ _
          · exact List.mem_cons_of_mem _ (ih s' (outl, s'') hlk hmem' hrest)

/-- Claim C5, counterexample to the original wording: requesting the
target-dependent resource `Y` with no target reports the `NO_TARGETS`
sentinel with compute time `None` — not zero (`compute_time = None` at
line 126 of `metafeatures.py`, where the claim asserts a zero time). -/
theorem c5_zero_time_counterexample :
    computeEntry regEmpty runFnW elapsedW none [] 1 1 sEmpty "Y" =
      some ((Val.strv NO_TARGETS, none), sEmpty) ∧
    (none : Option MTime) ≠ some (MTime.fin 0) := by
  constructor
  · rfl
  · decide

/-- Claim C5 (amended), exercised: requesting `["Y"]` with no target
reports `(NO_TARGETS, None)` and leaves the session untouched. -/
theorem c5_target_gating_none_time_witness :
    computeEntry regEmpty runFnW elapsedW none [] 1 1 sEmpty "Y" =
      some ((Val.strv NO_TARGETS, none), sEmpty) ∧
    ("Y", Val.strv NO_TARGETS, (none : Option MTime)) ∈
      [("Y", Val.strv NO_TARGETS, (none : Option MTime))] := by
  have hth := c5_target_gating_none_time regEmpty runFnW elapsedW [] 1 1 "Y" rfl
  refine ⟨hth.1 sEmpty, ?_⟩
  have h := hth.2.2.1 sEmpty ["Y"]
    ([("Y", Val.strv NO_TARGETS, none)], sEmpty) (by simp) rfl
  simpa using h

/-- Claim C6: `_validate_sample_shape` raises whenever the supplied
sample shape is not a tuple/list, whenever it does not have exactly two
entries, whenever a given row or column bound is below 1, and — when a
target is present and a row bound is given — whenever the row bound is
below (number of distinct target classes) × (fold count). -/
theorem c6_sample_shape_validation (Y : Option (String × List Int))
    (nf : Int) (l : List (Option Int)) :
    isErr (validateSampleShape Y nf ShapeArg.other) = true ∧
    (l.length ≠ 2 → isErr (validateSampleShape Y nf (ShapeArg.seq l)) = true) ∧
    (∀ k : Int, l.getD 0 none = some k → k < 1 →
      isErr (validateSampleShape Y nf (ShapeArg.seq l)) = true) ∧
    (∀ k : Int, l.getD 1 none = some k → k < 1 →
      isErr (validateSampleShape Y nf (ShapeArg.seq l)) = true) ∧
    (∀ (k : Int) (y : String × List Int), Y = some y → l.getD 0 none = some k →
      k < (y.2.dedup.length : Int) * nf →
      isErr (validateSampleShape Y nf (ShapeArg.seq l)) = true) := by
  refine ⟨rfl, ?_, ?_, ?_, ?_⟩
  · intro h
    rw [validateSampleShape, if_pos h]
    rfl
  · intro k hk hlt
    rw [validateSampleShape]
    by_cases hlen : l.length ≠ 2
    · rw [if_pos hlen]; rfl
    · rw [if_neg hlen]
      have hcond : ((l.getD 0 none).any fun j => decide (j < 1)) = true := by
        rw [hk]
        exact decide_eq_true hlt
      rw [if_pos hcond]
      rfl
  · intro k hk hlt
    rw [validateSampleShape]
    by_cases hlen : l.length ≠ 2
    · rw [if_pos hlen]; rfl
    · rw [if_neg hlen]
      by_cases hc0 : ((l.getD 0 none).any fun j => decide (j < 1)) = true
      · rw [if_pos hc0]; rfl
      · rw [if_neg hc0]
        have hcond : ((l.getD 1 none).any fun j => decide (j < 1)) = true := by
          rw [hk]
          exact decide_eq_true hlt
        rw [if_pos hcond]
        rfl
  · intro k y hY hk hlt
    rw [validateSampleShape]
    by_cases hlen : l.length ≠ 2
    · rw [if_pos hlen]; rfl
    · rw [if_neg hlen]
      by_cases hc0 : ((l.getD 0 none).any fun j => decide (j < 1)) = true
      · rw [if_pos hc0]; rfl
      · rw [if_neg hc0]
        by_cases hc1 : ((l.getD 1 none).any fun j => decide (j < 1)) = true
        · rw [if_pos hc1]; rfl
        · rw [if_neg hc1]
          rw [hk, hY]
          have hfl : validateRowFloor (some y) nf (some k) =
              if k < (y.2.dedup.length : Int) * nf then
                Except.error "Cannot sample less than min_samples rows from Y"
              else Except.ok () := rfl
          rw [hfl, if_pos hlt]
          rfl

/-- Claim C6, exercised: `sampleShape=(4, None)` with a 3-class target
and `foldCount=2` raises (4 < 6). -/
theorem c6_sample_shape_validation_witness :
    isErr (validateSampleShape (some ("class", [0, 1, 2])) 2
      (ShapeArg.seq [some 4, none])) = true :=
  (c6_sample_shape_validation (some ("class", [0, 1, 2])) 2
    [some 4, none]).2.2.2.2 4 ("class", [0, 1, 2]) rfl rfl (by decide)

/-- Claim C7: `_validate_metafeature_ids` raises no error when every
requested name exists in the registry, and otherwise raises exactly one
error whose message contains every invalid requested name (all invalid
names are collected before reporting). -/
theorem c7_invalid_ids_all_reported (R : Registry) (ids : List String) :
    ((∀ mf ∈ ids, (R.resource_info.lookup mf).isSome) →
      validateMetafeatureIds R (some ids) = Except.ok ()) ∧
    (∀ mf0, mf0 ∈ ids → R.resource_info.lookup mf0 = none →
      validateMetafeatureIds R (some ids) =
        Except.error (mfErrorMsg (ids.filter
          (fun mf => (R.resource_info.lookup mf).isNone))) ∧
      ∀ mf ∈ ids, R.resource_info.lookup mf = none →
        StrContains (mfErrorMsg (ids.filter
          (fun mf => (R.resource_info.lookup mf).isNone))) mf) := by
  constructor
  · intro hall
    have hnil : ids.filter (fun mf => (R.resource_info.lookup mf).isNone) = [] := by
      rw [List.filter_eq_nil]
      intro a ha
      rcases Option.isSome_iff_exists.mp (hall a ha) with ⟨b, hb⟩
      simp [hb]
    simp [validateMetafeatureIds, hnil]
  · intro mf0 hmem0 hnone0
    have hmemf : mf0 ∈ ids.filter
        (fun mf => (R.resource_info.lookup mf).isNone) :=
      List.mem_filter.mpr ⟨hmem0, by simp [hnone0]⟩
    have hpos : 0 < (ids.filter
        (fun mf => (R.resource_info.lookup mf).isNone)).length :=
      List.length_pos.mpr (List.ne_nil_of_mem hmemf)
    constructor
    · simp only [validateMetafeatureIds]
      rw [if_pos hpos]
    · intro mf hmf hnone
      exact mfErrorMsg_contains (List.mem_filter.mpr ⟨hmf, by simp [hnone]⟩)

/-- Claim C7, exercised: requesting `["Foo","Bar","NumberOfInstances"]`
where only the last is registered raises one error whose message
contains both `Foo` and `Bar`. -/
theorem c7_invalid_ids_all_reported_witness :
    validateMetafeatureIds regC7 (some ["Foo", "Bar", "NumberOfInstances"]) =
      Except.error (mfErrorMsg ["Foo", "Bar"]) ∧
    StrContains (mfErrorMsg ["Foo", "Bar"]) "Foo" ∧
    StrContains (mfErrorMsg ["Foo", "Bar"]) "Bar" := by
  obtain ⟨herr, hcont⟩ :=
    (c7_invalid_ids_all_reported regC7 ["Foo", "Bar", "NumberOfInstances"]).2
      "Foo" (by decide) (by decide)
  have hfilter : ["Foo", "Bar", "NumberOfInstances"].filter
      (fun mf => (regC7.resource_info.lookup mf).isNone) = ["Foo", "Bar"] := by
    decide
  rw [hfilter] at herr hcont
  exact ⟨herr, hcont "Foo" (by decide) (by decide),
    hcont "Bar" (by decide) (by decide)⟩

/-- Claim C8 (amended): `_validate_column_types` accepts a supplied map
exactly when the number of distinct keys equals the number of feature
columns (plus one when a target is given) and every mapped type is
`NUMERIC` or `CATEGORICAL`.  The identity of the keys is not checked, so
a map keyed by wrong column names with the right number of entries and
valid types is accepted — contrary to the original claim. -/
theorem c8_column_types_count_only (Xcols : List String)
    (Y : Option (String × List Int)) (ct : List (String × String)) :
    validateColumnTypes Xcols Y (some ct) = Except.ok () ↔
      ((ct.map Prod.fst).dedup.length =
        Xcols.length + (match Y with | none => 0 | some _ => 1)) ∧
      ∀ p ∈ ct, p.2 = NUMERIC ∨ p.2 = CATEGORICAL := by
  have hinner : validateColumnTypesInner ct = Except.ok () ↔
      ∀ p ∈ ct, p.2 = NUMERIC ∨ p.2 = CATEGORICAL := by
    rw [validateColumnTypesInner]
    by_cases hp : 0 < (ct.filter
        (fun p => p.2 ≠ NUMERIC ∧ p.2 ≠ CATEGORICAL)).length
    · rw [if_pos hp]
      obtain ⟨q, hq⟩ := List.exists_mem_of_length_pos hp
      have hq' := List.mem_filter.mp hq
      refine iff_of_false (by simp) ?_
      intro hall
      rcases hall q hq'.1 with h | h <;> simp [h] at hq'
    · rw [if_neg hp]
      refine iff_of_true rfl ?_
      intro p hmem
      by_contra hcon
      push_neg at hcon
      have : p ∈ ct.filter (fun p => p.2 ≠ NUMERIC ∧ p.2 ≠ CATEGORICAL) :=
        List.mem_filter.mpr ⟨hmem, by simp [hcon.1, hcon.2]⟩
      exact hp (List.length_pos.mpr (List.ne_nil_of_mem this))
  cases Y with
  | none =>
    rw [validateColumnTypes]
    by_cases hn : (ct.map Prod.fst).dedup.length ≠ Xcols.length
    · rw [if_pos hn]
      exact iff_of_false (by simp) (fun h => hn (by simpa using h.1))
    · rw [if_neg hn]
      push_neg at hn
      rw [hinner]
      constructor
      · intro h
        exact ⟨by simpa using hn, h⟩
      · intro h
        exact h.2
  | some y =>
    rw [validateColumnTypes]
    by_cases hn : (ct.map Prod.fst).dedup.length ≠ Xcols.length + 1
    · rw [if_pos hn]
      exact iff_of_false (by simp) (fun h => hn (by simpa using h.1))
    · rw [if_neg hn]
      push_neg at hn
      rw [hinner]
      constructor
      · intro h
        exact ⟨by simpa using hn, h⟩
      · intro h
        exact h.2

/-- Claim C8, counterexample to the original wording: a column-type map
keyed by `b` for a table whose only feature column is `a` — the right
number of entries, a valid type, the wrong key — is accepted, not
rejected. -/
theorem c8_wrong_keys_accepted_counterexample :
    validateColumnTypes ["a"] none (some [("b", NUMERIC)]) = Except.ok () ∧
    ("b" : String) ∉ (["a"] : List String) := by
  constructor
  · rfl
  · decide

/-- Claim C8 (amended), exercised: a correctly sized, validly typed map
is accepted. -/
theorem c8_column_types_count_only_witness :
    validateColumnTypes ["a"] none (some [("a", CATEGORICAL)]) =
      Except.ok () :=
  (c8_column_types_count_only ["a"] none [("a", CATEGORICAL)]).mpr
    ⟨by decide, by decide⟩

/-- Claim C9 (amended): the seed manager's derived seed equals base seed
plus offset (`_get_seed`), and the active offset is assigned from the
descriptor's `seed_offset` (or, absent there, the producing function's)
at the START of parameter retrieval — before the producing function is
invoked.  The producing function is therefore called with the resource's
own declared offset whenever every parameter is a literal or already
resolved in the cache; in general a parameter's own resolution may
re-assign the shared offset before the call (see the counterexample). -/
theorem c9_seed_offset_assignment (R : Registry)
    (runFn : String → List Val → Int → Int → List Val) (elapsed : Nat → Nat)
    (fuel : Nat) (s : EvalState) (name : String) (ri : ResourceInfo)
    (rets : List String) (params : List Param) (o : Int)
    (hmiss : s.resources name = none)
    (hri : R.resource_info.lookup name = some ri)
    (hrets : effReturns R ri = some rets)
    (hname : name ∈ rets)
    (hps : effParams R ri = some params)
    (hofs : assignSeedOffset R ri s = some { s with seed_offset := o })
    (hcached : ∀ p ∈ params, (∃ n, p = Param.lit n) ∨
      (∃ pn v t, p = Param.res pn ∧ s.resources pn = some (v, t) ∧
        v ≠ Val.nan))
    (harity : ∀ (args : List Val) (sd off : Int),
      (runFn ri.function args sd off).length = rets.length) :
    getSeed s.seed o = [Val.intv (s.seed + o)] ∧
    ∃ v t s', getResource R runFn elapsed (fuel + 2) s name =
        some (v, t, s') ∧
      s'.trace = s.trace ++ [(name, o)] := by
  refine ⟨rfl, ?_⟩
  obtain ⟨vals, tp, hloop⟩ :=
    @getParamListAux_cached R runFn elapsed
      fuel params { s with seed_offset := o } hcached
  have hpar : getParametersAux R (getResource R runFn elapsed (fuel + 1))
      s name = some (some vals, tp, { s with seed_offset := o }) := by
    rw [getParametersAux]
    simp only [hri, hps, hofs]
    exact hloop
  obtain ⟨w, hw⟩ := @storeResults_mem_time
    (MTime.add tp (MTime.fin (elapsed
      ({ s with seed_offset := o } : EvalState).trace.length)))
    (rets.zip (runFn ri.function vals
      ({ s with seed_offset := o } : EvalState).seed
      ({ s with seed_offset := o } : EvalState).seed_offset))
    ({ s with seed_offset := o } : EvalState).resources name
    (by rw [List.map_fst_zip _ _ (le_of_eq (harity vals _ _).symm)]
        exact hname)
  rw [getResource]
  simp only [hmiss, hri, hrets, hpar]
  simp only [hw]
  exact ⟨w, _, _, rfl, rfl⟩

/-- Claim C9 (amended), exercised: `A` declares seed offset 1 and has
only a literal parameter; its producing function is invoked with offset
1, and the derived seed is base + offset. -/
theorem c9_seed_offset_assignment_witness :
    Option.elim (getResource regC9w runFnC9 elapsedW 2 sC9 "A") False
      (fun r => r.2.2.trace = [("A", 1)]) ∧
    getSeed 10 1 = [Val.intv 11] := by
  constructor
  · obtain ⟨hseed, v, t, s', heq, htr⟩ :=
      c9_seed_offset_assignment regC9w runFnC9 elapsedW 0 sC9 "A"
        { function := "fA", parameters := some [Param.lit 7],
          returns := some ["A"], seed_offset := some 1 }
        ["A"] [Param.lit 7] 1 rfl rfl rfl (by decide) rfl rfl
        (by intro p hp
            simp at hp
            subst hp
            exact Or.inl ⟨7, rfl⟩)
        (fun args sd off => rfl)
    rw [heq]
    rw [Option.elim]
    rw [htr]
    rfl
  · rfl

/-- Claim C9, counterexample to the original wording: in the registry
`regC9`, `A` declares seed offset 1 but depends on `B`, which declares
seed offset 2; resolving `B` re-assigns `self.seed_offset` after `A`'s
assignment, so `A`'s producing function is invoked with offset 2, not
its own declared offset 1. -/
theorem c9_offset_clobbered_counterexample :
    (regC9.resource_info.lookup "A").map ResourceInfo.seed_offset =
      some (some 1) ∧
    (getResource regC9 runFnC9 elapsedW 3 sC9 "A").map
      (fun r => r.2.2.trace) = some [("B", 2), ("A", 2)] ∧
    (2 : Int) ≠ 1 := by
  refine ⟨rfl, rfl, by decide⟩

/-- Claim C10: at the start of every `compute` call the session cache is
re-initialized from scratch with exactly the six pre-resolved resources
`XRaw`, `X`, `Y`, `ColumnTypes`, `sample_shape`, `n_folds`, each with
compute time 0; `XRaw` is the caller's table unchanged, `X` is the table
with every all-missing column removed; the previous session's cache does
not influence the new one, and the invocation trace is empty. -/
theorem c10_fresh_init_six_resources (prev prev' : EvalState)
    (X : List (String × List (Option Int))) (Y : Option (String × List Int))
    (ct : List (String × String)) (ss : List (Option Int))
    (seed : Option Int) (randv : Int) (nf : Int) :
    (initState prev X Y ct ss seed randv nf).resources "XRaw" =
      some (Val.table X, MTime.fin 0) ∧
    (initState prev X Y ct ss seed randv nf).resources "X" =
      some (Val.table (dropAllNanCols X), MTime.fin 0) ∧
    (∀ c, c ∈ dropAllNanCols X ↔ c ∈ X ∧ ∃ v ∈ c.2, v ≠ none) ∧
    (initState prev X Y ct ss seed randv nf).resources "Y" =
      some (Val.series Y, MTime.fin 0) ∧
    (initState prev X Y ct ss seed randv nf).resources "ColumnTypes" =
      some (Val.colTypes ct, MTime.fin 0) ∧
    (initState prev X Y ct ss seed randv nf).resources "sample_shape" =
      some (Val.shape ss, MTime.fin 0) ∧
    (initState prev X Y ct ss seed randv nf).resources "n_folds" =
      some (Val.intv nf, MTime.fin 0) ∧
    (∀ n, n ∉ (["XRaw", "X", "Y", "ColumnTypes", "sample_shape",
        "n_folds"] : List String) →
      (initState prev X Y ct ss seed randv nf).resources n = none) ∧
    (initState prev X Y ct ss seed randv nf).resources =
      (initState prev' X Y ct ss seed randv nf).resources ∧
    (initState prev X Y ct ss seed randv nf).trace = [] := by
  refine ⟨rfl, rfl, ?_, rfl, rfl, rfl, rfl, ?_, rfl, rfl⟩
  · intro c
    simp [dropAllNanCols, List.mem_filter, List.all_eq_true,
      Option.isNone_iff_eq_none]
  · intro n hn
    simp only [List.mem_cons, List.mem_singleton, not_or] at hn
    obtain ⟨h1, h2, h3, h4, h5, h6⟩ := hn
    simp [initState, initResources, h1, h2, h3, h4, h5, h6]

/-- Claim C10, exercised: the all-missing column `a` is dropped from
`X`, `XRaw` keeps it, and a name outside the six is absent. -/
theorem c10_fresh_init_six_resources_witness :
    (initState sEmpty xC10 none [] [] (some 3) 0 2).resources "Q" = none ∧
    (initState sEmpty xC10 none [] [] (some 3) 0 2).resources "XRaw" =
      some (Val.table xC10, MTime.fin 0) ∧
    (("b", [some 1, none]) ∈ dropAllNanCols xC10 ↔
      ("b", [some 1, none]) ∈ xC10 ∧
        ∃ v ∈ [some (1 : Int), none], v ≠ none) := by
  have h := c10_fresh_init_six_resources sEmpty sEmpty xC10 none [] []
    (some 3) 0 2
  exact ⟨h.2.2.2.2.2.2.2.1 "Q" (by decide), h.1,
    h.2.2.1 ("b", [some 1, none])⟩

end Metalearn
